import Mathlib

/-!
# Verification of the multi-host scheduling aggregator/assignor (server.js)

A shallow embedding of the core logic of `server.js`:

* instants are modelled as `Int` (milliseconds since the epoch, the value of
  `Date.prototype.getTime`); ISO strings stay `String`, and the behaviour of
  `new Date(s).getTime()` / `Date.prototype.toISOString` is supplied by an
  environment (`Env.parse` / `Env.render`), since date parsing is a library
  facility, not code of this repository;
* every upstream HTTP interaction (Calendly) is an oracle in `Env`; a
  rejected `fetch` is an `Except.error` (for the `calendly` helper, which
  throws on non-2xx) or a `FetchResp` with `ok = false` (for the raw `fetch`
  calls of the booking route);
* the process-wide `EVENT_TYPE_URI_CACHE` is threaded explicitly as a value
  of type `Cache`;
* JavaScript's stable `Array.prototype.sort` is modelled by Mathlib's
  `List.insertionSort` (stable, sorted w.r.t. the comparator's preorder);
* `Map` (insertion-ordered, `set` on an existing key keeps its position) is
  modelled by an association list with an in-place `setAssoc` update.
-/

/-- A host of the static roster `hosts.json`:
`{host_id, display_name, pat_env, event_type_uri, priority_weight}`. -/
structure Host where
  host_id : String
  display_name : String
  pat_env : String
  event_type_uri : String
  priority_weight : Int
deriving DecidableEq, Repr

/-- One element of an `event_types` listing: its public `scheduling_url`
and its API `uri`. -/
structure EventTypeEntry where
  scheduling_url : String
  uri : String
deriving DecidableEq, Repr

/-- One element of the `collection` of `/event_type_available_times`. -/
structure AvEntry where
  start_time : String
  end_time : String
deriving DecidableEq, Repr

/-- The observable part of a raw `fetch` response used by the booking route:
`ok`, `status`, the response body text, and (for scheduling-link responses)
`resource.booking_url` of the parsed JSON. -/
structure FetchResp where
  ok : Bool
  status : Nat
  body : String
  bookingUrl : Option String
deriving DecidableEq, Repr

/-- The ambient behaviour the server code runs against: `process.env`,
JavaScript date parsing/rendering, and the upstream provider's endpoints.
All provider oracles are deterministic functions of their arguments, which
models one fixed execution. -/
structure Env where
  /-- `process.env[name]` -/
  envVar : String → Option String
  /-- `new Date(s).getTime()`; `none` models `NaN` (an invalid date). -/
  parse : String → Option Int
  /-- `new Date(t).toISOString()` for a finite `t`. -/
  render : Int → String
  /-- `GET /users/me` under a token: `me.resource?.uri` on success. -/
  usersMe : String → Except String (Option String)
  /-- `GET /event_types?user=...` under a token: the `collection`. -/
  eventTypes : String → String → Except String (List EventTypeEntry)
  /-- `GET /event_type_available_times?event_type&start_time&end_time&timezone`
  under an (possibly absent) token: the `collection`. -/
  availableTimes : Option String → String → String → String → String →
    Except String (List AvEntry)
  /-- `POST /event_invitees` (token?, event_type, start, end, name, email). -/
  directBook : Option String → String → String → String → String → String →
    FetchResp
  /-- `POST /scheduling_links` (token?, owner, owner_type, max_event_count). -/
  schedulingLink : Option String → String → String → Nat → FetchResp

/-- The `EVENT_TYPE_URI_CACHE`: `host_id → event-type API URI`. -/
abbrev Cache := List (String × String)

/-- First binding of a key in an association list (`Map.get`). -/
def cacheFind : Cache → String → Option String
  | [], _ => none
  | (k, v) :: t, key => if k = key then some v else cacheFind t key

/-- JavaScript falsiness of an optional string: absent (`undefined`/`null`)
or empty. -/
def falsyS : Option String → Bool
  | none => true
  | some s => s.isEmpty

/-- `toISO` of the source: `new Date(isoish).toISOString()`.  `none` models
the `RangeError` thrown on an invalid date. -/
def toISO (env : Env) (s : String) : Option String :=
  (env.parse s).map env.render

/-- `addMinutesISO` of the source:
`new Date(new Date(iso).getTime() + minutes*60*1000).toISOString()`.
`none` models the `RangeError` thrown when `iso` is unparseable. -/
def addMinutesISO (env : Env) (iso : String) (minutes : Int) : Option String :=
  (env.parse iso).map (fun t => env.render (t + minutes * 60 * 1000))

/-- `sameInstant` of the source:
`new Date(a).getTime() === new Date(b).getTime()` (false when either side
is `NaN`, since `NaN === NaN` is false). -/
def sameInstant (env : Env) (a b : String) : Bool :=
  match env.parse a, env.parse b with
  | some x, some y => x == y
  | _, _ => false

/-- `resolveEventTypeApiUriForHost` of the source, with the cache threaded:
cache hit returns immediately; otherwise requires a truthy PAT, fetches
`/users/me`, lists the user's event types and scans for the entry whose
`scheduling_url` equals the host's configured `event_type_uri`; a match is
cached. Every `throw` of the source is an `Except.error`. -/
def resolveEventTypeApiUriForHost (env : Env) (cache : Cache) (host : Host) :
    Except String (String × Cache) :=
  match cacheFind cache host.host_id with
  | some uri => .ok (uri, cache)
  | none =>
    match env.envVar host.pat_env with
    | none => .error ("Missing PAT env var for " ++ host.host_id ++ ": " ++ host.pat_env)
    | some token =>
      if token.isEmpty then
        .error ("Missing PAT env var for " ++ host.host_id ++ ": " ++ host.pat_env)
      else
        match env.usersMe token with
        | .error msg => .error msg
        | .ok none => .error ("users/me returned no resource.uri for " ++ host.host_id)
        | .ok (some userUri) =>
          match env.eventTypes token userUri with
          | .error msg => .error msg
          | .ok list =>
            match list.find? (fun et => et.scheduling_url == host.event_type_uri) with
            | none => .error ("No event_type with scheduling_url=" ++ host.event_type_uri
                ++ " for " ++ host.host_id)
            | some m => .ok (m.uri, (host.host_id, m.uri) :: cache)

/-- `hostHasExactSlot` of the source.  The PAT is looked up without a
truthiness check; event-type resolution is awaited OUTSIDE the `try`, so a
resolution failure propagates (`Except.error`); `toISO` normalization is
also outside the `try`; only the availability call is inside the `try`, and
any failure of it yields `false`.  On a successful query the collection is
scanned for an entry whose start AND end are `sameInstant` with the
normalized request. -/
def hostHasExactSlot (env : Env) (cache : Cache) (host : Host)
    (start_time end_time : String) : Except String (Bool × Cache) :=
  let token := env.envVar host.pat_env
  match resolveEventTypeApiUriForHost env cache host with
  | .error msg => .error msg
  | .ok (et, cache') =>
    match toISO env start_time, toISO env end_time with
    | some startISO, some endISO =>
      match env.availableTimes token et startISO endISO "UTC" with
      | .error _ => .ok (false, cache')
      | .ok coll =>
        .ok (coll.any (fun s =>
          sameInstant env s.start_time startISO && sameInstant env s.end_time endISO),
          cache')
    | _, _ => .error "Invalid time value"

/-- The window clamping of `GET /api/slots` on parsed instants:
`minStart = now + 1 min`, `clampedStart = startDate < minStart ? minStart :
startDate`, `maxEnd = clampedStart + 7 days`, `clampedEnd = endDate > maxEnd
? maxEnd : endDate`; a 400 when either bound is unparseable (`isNaN`) or
`clampedEnd <= clampedStart`. -/
def clampWindow (parsedStart parsedEnd : Option Int) (now : Int) :
    Except String (Int × Int) :=
  match parsedStart, parsedEnd with
  | some startDate, some endDate =>
    let minStart := now + 60000
    let clampedStart := if startDate < minStart then minStart else startDate
    let maxEnd := clampedStart + 7 * 24 * 60 * 60 * 1000
    let clampedEnd := if endDate > maxEnd then maxEnd else endDate
    if clampedEnd ≤ clampedStart then
      .error "End must be after start and within 7 days"
    else
      .ok (clampedStart, clampedEnd)
  | _, _ => .error "Invalid start or end (must be ISO 8601)"

/-- C7: window normalization clamps to
`clampedStart = max rawStart (now+1min)`,
`clampedEnd = min rawEnd (clampedStart+7days)`, and fails with
ValidationError exactly when a bound is unparseable or the clamped window is
empty or inverted (`clampedEnd ≤ clampedStart`). -/
theorem clampWindow_spec (ps pe : Option Int) (now : Int) :
    (∀ a b : Int, clampWindow ps pe now = .ok (a, b) ↔
      ∃ sd ed : Int, ps = some sd ∧ pe = some ed ∧
        a = max sd (now + 60000) ∧ b = min ed (a + 604800000) ∧ a < b) ∧
    ((∃ msg, clampWindow ps pe now = .error msg) ↔
      (ps = none ∨ pe = none ∨ ∃ sd ed : Int, ps = some sd ∧ pe = some ed ∧
        min ed (max sd (now + 60000) + 604800000) ≤ max sd (now + 60000))) := by
  constructor
  · intro a b
    match ps, pe with
    | none, none => simp [clampWindow]
    | none, some ed => simp [clampWindow]
    | some sd, none => simp [clampWindow]
    | some sd, some ed =>
      simp only [clampWindow, Option.some.injEq]
      have hmax : (if sd < now + 60000 then now + 60000 else sd) = max sd (now + 60000) := by
        rcases lt_or_ge sd (now + 60000) with h | h
        · simp [h, max_eq_right h.le]
        · simp [not_lt.mpr h, max_eq_left h]
      rw [hmax]
      have hmin : (if ed > max sd (now + 60000) + 7 * 24 * 60 * 60 * 1000 then
            max sd (now + 60000) + 7 * 24 * 60 * 60 * 1000 else ed)
          = min ed (max sd (now + 60000) + 604800000) := by
        rcases lt_or_ge (max sd (now + 60000) + 7 * 24 * 60 * 60 * 1000) ed with h | h
        · simp only [gt_iff_lt, h, if_true]
          omega
        · simp only [gt_iff_lt, not_lt.mpr h, if_false]
          omega
      rw [hmin]
      by_cases hle : min ed (max sd (now + 60000) + 604800000) ≤ max sd (now + 60000)
      · simp only [hle, if_true]
        constructor
        · intro h; cases h
        · rintro ⟨sd', ed', hsd, hed, ha, hb, hab⟩
          cases hsd; cases hed
          subst ha; subst hb; omega
      · simp only [hle, if_false, Except.ok.injEq, Prod.mk.injEq]
        constructor
        · rintro ⟨ha, hb⟩
          exact ⟨sd, ed, rfl, rfl, ha.symm, by omega, by omega⟩
        · rintro ⟨sd', ed', hsd, hed, ha, hb, hab⟩
          cases hsd; cases hed
          exact ⟨ha.symm, by omega⟩
  · match ps, pe with
    | none, none => simp [clampWindow]
    | none, some ed => simp [clampWindow]
    | some sd, none => simp [clampWindow]
    | some sd, some ed =>
      simp only [clampWindow, Option.some.injEq]
      have hmax : (if sd < now + 60000 then now + 60000 else sd) = max sd (now + 60000) := by
        rcases lt_or_ge sd (now + 60000) with h | h
        · simp [h, max_eq_right h.le]
        · simp [not_lt.mpr h, max_eq_left h]
      rw [hmax]
      have hmin : (if ed > max sd (now + 60000) + 7 * 24 * 60 * 60 * 1000 then
            max sd (now + 60000) + 7 * 24 * 60 * 60 * 1000 else ed)
          = min ed (max sd (now + 60000) + 604800000) := by
        rcases lt_or_ge (max sd (now + 60000) + 7 * 24 * 60 * 60 * 1000) ed with h | h
        · simp only [gt_iff_lt, h, if_true]
          omega
        · simp only [gt_iff_lt, not_lt.mpr h, if_false]
          omega
      rw [hmin]
      by_cases hle : min ed (max sd (now + 60000) + 604800000) ≤ max sd (now + 60000)
      · simp only [hle, if_true]
        constructor
        · intro _; exact Or.inr (Or.inr ⟨sd, ed, rfl, rfl, hle⟩)
        · intro _; exact ⟨"End must be after start and within 7 days", rfl⟩
      · simp only [hle, if_false]
        constructor
        · rintro ⟨msg, hmsg⟩; cases hmsg
        · rintro (h | h | ⟨sd', ed', hsd, hed, h⟩)
          · cases h
          · cases h
          · cases hsd; cases hed; exact absurd h hle

/-- A raw per-host slot produced inside `getUnionSlots`'s fan-out:
the provider's `start_time` passed through verbatim, an `end_time` derived
as `addMinutesISO(start_time, 30)`, and the contributing host. -/
structure RawSlot where
  start_time : String
  end_time : String
  host_id : String
  host_name : String
deriving DecidableEq, Repr

/-- A host reference accumulated inside a merged slot (`{id, name}`). -/
structure HostRef where
  id : String
  name : String
deriving DecidableEq, Repr

/-- A merged slot of the aggregation result:
`{start_time, end_time, hosts:[{id,name},...]}`. -/
structure Slot where
  start_time : String
  end_time : String
  hosts : List HostRef
deriving DecidableEq, Repr

/-- `Array.prototype.map` with a callback that may throw (the `RangeError`
of `addMinutesISO`): the first throw rejects the surrounding task. -/
def mapOrThrow (f : AvEntry → Option RawSlot) : List AvEntry → Option (List RawSlot)
  | [] => some []
  | a :: as =>
    match f a, mapOrThrow f as with
    | some b, some bs => some (b :: bs)
    | _, _ => none

/-- One host's task inside `getUnionSlots`'s `Promise.allSettled` fan-out:
require a truthy PAT, resolve the event type, query availability, and map
every returned entry to a `RawSlot` whose end is `start + 30 minutes`.
An `Except.error` models a rejected promise (including the `RangeError`
of `addMinutesISO` on an unparseable `start_time`). -/
def perHostSlots (env : Env) (cache : Cache) (startS endS tz : String) (h : Host) :
    Except String (List RawSlot) :=
  match env.envVar h.pat_env with
  | none => .error ("Missing PAT env var for " ++ h.host_id ++ ": " ++ h.pat_env)
  | some token =>
    if token.isEmpty then
      .error ("Missing PAT env var for " ++ h.host_id ++ ": " ++ h.pat_env)
    else
      match resolveEventTypeApiUriForHost env cache h with
      | .error msg => .error msg
      | .ok (et, _) =>
        match env.availableTimes (some token) et startS endS
            (if tz.isEmpty then "UTC" else tz) with
        | .error msg => .error msg
        | .ok data =>
          match mapOrThrow (fun s => (addMinutesISO env s.start_time 30).map
              (fun e => RawSlot.mk s.start_time e h.host_id h.display_name)) data with
          | none => .error "Invalid time value"
          | some slots => .ok slots

/-- The `bucket` of `getUnionSlots`: a JavaScript `Map` modelled as an
insertion-ordered association list (`set` of an existing key keeps its
position). -/
abbrev Bucket := List (String × Slot)

/-- `Map.get`. -/
def bucketFind : Bucket → String → Option Slot
  | [], _ => none
  | (k, v) :: t, key => if k = key then some v else bucketFind t key

/-- `Map.set`: replace the value at the first occurrence of the key, keeping
its position; append at the end when the key is new. -/
def setAssoc : Bucket → String → Slot → Bucket
  | [], key, v => [(key, v)]
  | (k, w) :: t, key, v => if k = key then (key, v) :: t else (k, w) :: setAssoc t key v

/-- The bucket key of a raw slot: `` `${s.start_time}__${s.end_time}` ``. -/
def slotKey (s : RawSlot) : String :=
  s.start_time ++ "__" ++ s.end_time

/-- One iteration of the merging loop: fetch-or-default the entry for the
slot's key, `push` the contributing host, and `set` it back. -/
def bucketInsert (b : Bucket) (s : RawSlot) : Bucket :=
  let key := slotKey s
  let entry := (bucketFind b key).getD (Slot.mk s.start_time s.end_time [])
  setAssoc b key { entry with hosts := entry.hosts ++ [HostRef.mk s.host_id s.host_name] }

/-- The full merging loop over the settled per-host results: a rejected
result is skipped (only logged), a fulfilled one has each of its slots
folded into the bucket. -/
def mergeResults (results : List (Except String (List RawSlot))) : Bucket :=
  results.foldl
    (fun b r =>
      match r with
      | .error _ => b
      | .ok slots => slots.foldl bucketInsert b)
    []

/-- Lexicographic "not greater" on character lists by code point: the order
`localeCompare` induces on the plain ASCII ISO strings at hand. -/
def leChars : List Char → List Char → Bool
  | [], _ => true
  | _ :: _, [] => false
  | a :: as, b :: bs =>
    if a.val.toNat < b.val.toNat then true
    else if b.val.toNat < a.val.toNat then false
    else leChars as bs

theorem leChars_total : ∀ as bs : List Char, leChars as bs = true ∨ leChars bs as = true := by
  intro as
  induction as with
  | nil => intro bs; left; rfl
  | cons a as ih =>
    intro bs
    cases bs with
    | nil => right; rfl
    | cons b bs =>
      by_cases h1 : a.val.toNat < b.val.toNat
      · left; simp [leChars, h1]
      · by_cases h2 : b.val.toNat < a.val.toNat
        · right; simp [leChars, h2]
        · rcases ih bs with h | h
          · left; simp [leChars, h1, h2, h]
          · right; simp [leChars, h1, h2, h]

theorem leChars_trans : ∀ as bs cs : List Char,
    leChars as bs = true → leChars bs cs = true → leChars as cs = true := by
  intro as
  induction as with
  | nil => intro bs cs _ _; rfl
  | cons a as ih =>
    intro bs cs hab hbc
    cases bs with
    | nil => simp [leChars] at hab
    | cons b bs =>
      cases cs with
      | nil => simp [leChars] at hbc
      | cons c cs =>
        simp only [leChars] at hab hbc ⊢
        by_cases hba : b.val.toNat < a.val.toNat
        · rw [if_neg (by omega), if_pos hba] at hab
          simp at hab
        · by_cases hcb : c.val.toNat < b.val.toNat
          · rw [if_neg (by omega), if_pos hcb] at hbc
            simp at hbc
          · by_cases hac : a.val.toNat < c.val.toNat
            · rw [if_pos hac]
            · rw [if_neg (by omega), if_neg hba] at hab
              rw [if_neg (by omega), if_neg hcb] at hbc
              rw [if_neg hac, if_neg (by omega)]
              exact ih bs cs hab hbc

/-- String comparison used by the sort: `a.localeCompare(b) <= 0`. -/
def strLe (a b : String) : Prop :=
  leChars a.data b.data = true

instance : DecidableRel strLe := fun a b =>
  inferInstanceAs (Decidable (_ = true))

instance : IsTotal String strLe :=
  ⟨fun a b => leChars_total a.data b.data⟩

instance : IsTrans String strLe :=
  ⟨fun _ _ _ hab hbc => leChars_trans _ _ _ hab hbc⟩

/-- The sort comparator of `getUnionSlots`:
`(a,b) => a.start_time.localeCompare(b.start_time)`, modelled as
lexicographic code-point order on the raw strings. -/
def slotLe (a b : Slot) : Prop :=
  strLe a.start_time b.start_time

instance : DecidableRel slotLe := fun a b =>
  inferInstanceAs (Decidable (_ = true))

instance : IsTotal Slot slotLe :=
  ⟨fun a b => leChars_total a.start_time.data b.start_time.data⟩

instance : IsTrans Slot slotLe :=
  ⟨fun _ _ _ hab hbc => leChars_trans _ _ _ hab hbc⟩

/-- `[...bucket.values()].sort(...)`: the bucket's values in key-insertion
order, stably sorted by raw `start_time` string. -/
def unionFromResults (results : List (Except String (List RawSlot))) : List Slot :=
  List.insertionSort slotLe ((mergeResults results).map Prod.snd)

/-- `getUnionSlots` of the source: fan out one task per roster host (each
against the same initial cache, as the tasks run concurrently and the cache
fill is idempotent), await all settlements, merge, and sort. -/
def getUnionSlots (env : Env) (cache : Cache) (roster : List Host)
    (startS endS tz : String) : List Slot :=
  unionFromResults (roster.map (perHostSlots env cache startS endS tz))

/-- C6: a failing host is skipped by the merging loop, so the aggregate over
a roster containing it equals the aggregate over the roster with it removed:
every other host's slots are all present, the failing host contributes
nothing, and no error is surfaced (the result type is a plain list). -/
theorem getUnionSlots_isolation (env : Env) (cache : Cache) (startS endS tz : String)
    (pre post : List Host) (h : Host)
    (hfail : (perHostSlots env cache startS endS tz h).toOption = none) :
    getUnionSlots env cache (pre ++ h :: post) startS endS tz =
      getUnionSlots env cache (pre ++ post) startS endS tz := by
  cases hp : perHostSlots env cache startS endS tz h with
  | ok l => rw [hp] at hfail; simp [Except.toOption] at hfail
  | error msg =>
    unfold getUnionSlots unionFromResults mergeResults
    rw [List.map_append, List.map_cons, List.map_append,
      List.foldl_append, List.foldl_cons, List.foldl_append, hp]

/-- "Not later, as instants": `getTime` comparison of two slot starts,
trivially true when either string is unparseable. -/
def instLeB : Option Int → Option Int → Bool
  | some x, some y => x ≤ y
  | _, _ => true

/-- Chronological comparison of two merged slots by the instant value of
their raw `start_time` strings. -/
def startInstLe (env : Env) (a b : Slot) : Prop :=
  instLeB (env.parse a.start_time) (env.parse b.start_time) = true

instance (env : Env) : DecidableRel (startInstLe env) := fun a b =>
  inferInstanceAs (Decidable (_ = true))

/-- C8 (amended): the aggregation result is non-decreasing in the raw
`start_time` STRING (lexicographically); it is non-decreasing by start
INSTANT only when the string order of the result's starts agrees with their
instant order, as it does when all raw starts share one canonical
fixed-offset fixed-precision rendering. -/
theorem getUnionSlots_sorted_by_raw_start (env : Env) (cache : Cache)
    (roster : List Host) (startS endS tz : String) :
    List.Sorted slotLe (getUnionSlots env cache roster startS endS tz) ∧
    ((∀ a ∈ getUnionSlots env cache roster startS endS tz,
        ∀ b ∈ getUnionSlots env cache roster startS endS tz,
        slotLe a b → startInstLe env a b) →
      (getUnionSlots env cache roster startS endS tz).Pairwise (startInstLe env)) := by
  have hsorted : List.Sorted slotLe (getUnionSlots env cache roster startS endS tz) := by
    unfold getUnionSlots unionFromResults
    exact List.sorted_insertionSort slotLe _
  refine ⟨hsorted, fun hmono => ?_⟩
  exact List.Pairwise.imp_of_mem (fun ha hb hr => hmono _ ha _ hb hr) hsorted

/-- A roster host used by concrete scenarios. -/
def hostU : Host :=
  Host.mk "u" "Uma" "U_PAT" "https://calendly.com/u/meet" 1

/-- A concrete execution in which the provider reports two availabilities
denoting the instants 2025-01-01T19:00:00Z (written with a `+05:00` offset)
and 2025-01-01T23:00:00Z; `parse` follows JavaScript `Date` semantics on
these strings. -/
def env8 : Env where
  envVar := fun _ => some "tok"
  parse := fun s =>
    if s = "2025-01-01T23:00:00Z" then some 1735772400000
    else if s = "2025-01-02T00:00:00+05:00" then some 1735758000000
    else none
  render := fun t =>
    if t = 1735759800000 then "2025-01-01T19:30:00.000Z"
    else if t = 1735774200000 then "2025-01-01T23:30:00.000Z"
    else "1970-01-01T00:00:00.000Z"
  usersMe := fun _ => .error "unused"
  eventTypes := fun _ _ => .error "unused"
  availableTimes := fun _ _ _ _ _ =>
    .ok [AvEntry.mk "2025-01-02T00:00:00+05:00" "",
         AvEntry.mk "2025-01-01T23:00:00Z" ""]
  directBook := fun _ _ _ _ _ _ => FetchResp.mk false 500 "" none
  schedulingLink := fun _ _ _ _ => FetchResp.mk false 500 "" none

/-- C8 (counterexample): with a raw start written in a non-UTC offset, the
lexicographic sort puts the LATER instant first, so the result is not
non-decreasing by start instant. -/
theorem getUnionSlots_not_sorted_by_instant :
    ¬ (getUnionSlots env8 [("u", "ETU")] [hostU]
        "2025-01-01T00:00:00Z" "2025-01-08T00:00:00Z" "UTC").Pairwise
          (startInstLe env8) := by
  have heq : getUnionSlots env8 [("u", "ETU")] [hostU]
      "2025-01-01T00:00:00Z" "2025-01-08T00:00:00Z" "UTC" =
      [Slot.mk "2025-01-01T23:00:00Z" "2025-01-01T23:30:00.000Z" [HostRef.mk "u" "Uma"],
       Slot.mk "2025-01-02T00:00:00+05:00" "2025-01-01T19:30:00.000Z" [HostRef.mk "u" "Uma"]] := by
    decide
  rw [heq]
  intro hp
  have h2 : startInstLe env8
      (Slot.mk "2025-01-01T23:00:00Z" "2025-01-01T23:30:00.000Z" [HostRef.mk "u" "Uma"])
      (Slot.mk "2025-01-02T00:00:00+05:00" "2025-01-01T19:30:00.000Z" [HostRef.mk "u" "Uma"]) :=
    (List.pairwise_cons.mp hp).1 _ (List.mem_singleton.mpr rfl)
  exact absurd h2 (by decide)

/-- C8 (witness): the amended theorem applied to the very same concrete
execution: the result is sorted by raw start string. -/
theorem getUnionSlots_sorted_by_raw_start_witness :
    List.Sorted slotLe (getUnionSlots env8 [("u", "ETU")] [hostU]
      "2025-01-01T00:00:00Z" "2025-01-08T00:00:00Z" "UTC") ∧
    ((∀ a ∈ getUnionSlots env8 [("u", "ETU")] [hostU]
        "2025-01-01T00:00:00Z" "2025-01-08T00:00:00Z" "UTC",
        ∀ b ∈ getUnionSlots env8 [("u", "ETU")] [hostU]
        "2025-01-01T00:00:00Z" "2025-01-08T00:00:00Z" "UTC",
        slotLe a b → startInstLe env8 a b) →
      (getUnionSlots env8 [("u", "ETU")] [hostU]
        "2025-01-01T00:00:00Z" "2025-01-08T00:00:00Z" "UTC").Pairwise
          (startInstLe env8)) :=
  getUnionSlots_sorted_by_raw_start env8 [("u", "ETU")] [hostU]
    "2025-01-01T00:00:00Z" "2025-01-08T00:00:00Z" "UTC"

/-- Total host occurrences stored in a bucket. -/
def sumHosts (b : Bucket) : Nat :=
  (b.map (fun p => p.2.hosts.length)).sum

/-- Every bucket binding's key is the `` `${start}__${end}` `` of its slot. -/
def bucketKeysOk (b : Bucket) : Prop :=
  ∀ p ∈ b, p.1 = p.2.start_time ++ "__" ++ p.2.end_time

theorem bucketFind_eq_none {b : Bucket} {k : String} :
    bucketFind b k = none ↔ k ∉ b.map Prod.fst := by
  induction b with
  | nil => simp [bucketFind]
  | cons p t ih =>
    obtain ⟨k', v⟩ := p
    by_cases h : k' = k
    · subst h; simp [bucketFind]
    · simp [bucketFind, h, ih, Ne.symm h]

theorem bucketFind_mem {b : Bucket} {k : String} {w : Slot}
    (h : bucketFind b k = some w) : (k, w) ∈ b := by
  induction b with
  | nil => simp [bucketFind] at h
  | cons p t ih =>
    obtain ⟨k', v⟩ := p
    by_cases hk : k' = k
    · subst hk
      simp only [bucketFind, if_true, eq_self_iff_true, Option.some.injEq] at h
      subst h; exact List.mem_cons_self _ _
    · simp only [bucketFind, if_neg hk] at h
      exact List.mem_cons_of_mem _ (ih h)

theorem setAssoc_of_none {b : Bucket} {k : String} (v : Slot)
    (h : bucketFind b k = none) : setAssoc b k v = b ++ [(k, v)] := by
  induction b with
  | nil => rfl
  | cons p t ih =>
    obtain ⟨k', w⟩ := p
    by_cases hk : k' = k
    · subst hk; simp [bucketFind] at h
    · simp only [bucketFind, if_neg hk] at h
      simp [setAssoc, hk, ih h]

theorem setAssoc_keys_of_some {b : Bucket} {k : String} {w : Slot} (v : Slot)
    (h : bucketFind b k = some w) :
    (setAssoc b k v).map Prod.fst = b.map Prod.fst := by
  induction b with
  | nil => simp [bucketFind] at h
  | cons p t ih =>
    obtain ⟨k', w'⟩ := p
    by_cases hk : k' = k
    · subst hk; simp [setAssoc]
    · simp only [bucketFind, if_neg hk] at h
      simp [setAssoc, hk, ih h]

theorem setAssoc_prop {P : String × Slot → Prop} {b : Bucket} {k : String} {v : Slot}
    (hall : ∀ p ∈ b, P p) (hv : P (k, v)) : ∀ p ∈ setAssoc b k v, P p := by
  induction b with
  | nil => simpa [setAssoc] using hv
  | cons q t ih =>
    obtain ⟨k', w⟩ := q
    by_cases hk : k' = k
    · subst hk
      simp only [setAssoc, if_pos rfl]
      intro p hp
      rcases List.mem_cons.mp hp with h | h
      · subst h; exact hv
      · exact hall _ (List.mem_cons_of_mem _ h)
    · simp only [setAssoc, if_neg hk]
      intro p hp
      rcases List.mem_cons.mp hp with h | h
      · subst h; exact hall _ (List.mem_cons_self _ _)
      · exact ih (fun q hq => hall _ (List.mem_cons_of_mem _ hq)) _ h

theorem sumHosts_setAssoc_found {b : Bucket} {k : String} {w : Slot} (x : HostRef)
    (h : bucketFind b k = some w) :
    sumHosts (setAssoc b k { w with hosts := w.hosts ++ [x] }) = sumHosts b + 1 := by
  induction b with
  | nil => simp [bucketFind] at h
  | cons p t ih =>
    obtain ⟨k', v⟩ := p
    by_cases hk : k' = k
    · subst hk
      simp only [bucketFind, if_true, eq_self_iff_true, Option.some.injEq] at h
      subst h
      simp [setAssoc, sumHosts, List.length_append]
      omega
    · simp only [bucketFind, if_neg hk] at h
      simp only [setAssoc, if_neg hk]
      have := ih h
      simp only [sumHosts, List.map_cons, List.sum_cons] at this ⊢
      omega

theorem bucketInsert_keys_nodup {b : Bucket} (s : RawSlot)
    (hnd : (b.map Prod.fst).Nodup) : ((bucketInsert b s).map Prod.fst).Nodup := by
  simp only [bucketInsert]
  cases hf : bucketFind b (slotKey s) with
  | none =>
    simp only [Option.getD_none]
    rw [setAssoc_of_none _ hf]
    simp only [List.map_append, List.map_cons, List.map_nil]
    rw [List.nodup_append]
    exact ⟨hnd, List.nodup_singleton _,
      by simpa using fun hmem => (bucketFind_eq_none.mp hf) hmem⟩
  | some w =>
    simp only [Option.getD_some]
    rw [setAssoc_keys_of_some _ hf]
    exact hnd

theorem bucketInsert_keysOk {b : Bucket} (s : RawSlot)
    (hok : bucketKeysOk b) : bucketKeysOk (bucketInsert b s) := by
  simp only [bucketInsert, bucketKeysOk]
  cases hf : bucketFind b (slotKey s) with
  | none =>
    simp only [Option.getD_none]
    rw [setAssoc_of_none _ hf]
    intro p hp
    rcases List.mem_append.mp hp with h | h
    · exact hok _ h
    · rcases List.mem_singleton.mp h with rfl
      rfl
  | some w =>
    simp only [Option.getD_some]
    refine setAssoc_prop hok ?_
    have hw : (slotKey s, w) ∈ b := bucketFind_mem hf
    have hkey := hok _ hw
    exact hkey

theorem bucketInsert_sum {b : Bucket} (s : RawSlot) :
    sumHosts (bucketInsert b s) = sumHosts b + 1 := by
  simp only [bucketInsert]
  cases hf : bucketFind b (slotKey s) with
  | none =>
    simp only [Option.getD_none]
    rw [setAssoc_of_none _ hf]
    simp [sumHosts]
  | some w =>
    simp only [Option.getD_some]
    exact sumHosts_setAssoc_found _ hf

theorem foldl_bucketInsert_invariant (slots : List RawSlot) :
    ∀ b : Bucket, ((b.map Prod.fst).Nodup ∧ bucketKeysOk b) →
      (((slots.foldl bucketInsert b).map Prod.fst).Nodup ∧
        bucketKeysOk (slots.foldl bucketInsert b) ∧
        sumHosts (slots.foldl bucketInsert b) = sumHosts b + slots.length) := by
  induction slots with
  | nil => intro b hb; exact ⟨hb.1, hb.2, rfl⟩
  | cons s t ih =>
    intro b hb
    have h1 : ((bucketInsert b s).map Prod.fst).Nodup := bucketInsert_keys_nodup s hb.1
    have h2 : bucketKeysOk (bucketInsert b s) := bucketInsert_keysOk s hb.2
    obtain ⟨ha, hb', hc⟩ := ih (bucketInsert b s) ⟨h1, h2⟩
    refine ⟨ha, hb', ?_⟩
    simp only [List.foldl_cons] at hc ⊢
    rw [hc, bucketInsert_sum]
    simp [List.length_cons]
    omega

/-- Slots contributed by one settled per-host result: none when rejected. -/
def fulfilledCount : Except String (List RawSlot) → Nat
  | .error _ => 0
  | .ok slots => slots.length

theorem mergeResults_invariant (results : List (Except String (List RawSlot))) :
    (((mergeResults results).map Prod.fst).Nodup ∧
      bucketKeysOk (mergeResults results) ∧
      sumHosts (mergeResults results) = (results.map fulfilledCount).sum) := by
  suffices h : ∀ b : Bucket, ((b.map Prod.fst).Nodup ∧ bucketKeysOk b) →
      (((results.foldl
          (fun b r => match r with
            | .error _ => b
            | .ok slots => slots.foldl bucketInsert b) b).map Prod.fst).Nodup ∧
        bucketKeysOk (results.foldl
          (fun b r => match r with
            | .error _ => b
            | .ok slots => slots.foldl bucketInsert b) b) ∧
        sumHosts (results.foldl
          (fun b r => match r with
            | .error _ => b
            | .ok slots => slots.foldl bucketInsert b) b) =
          sumHosts b + (results.map fulfilledCount).sum) by
    obtain ⟨h1, h2, h3⟩ := h [] ⟨List.nodup_nil, by intro p hp; cases hp⟩
    exact ⟨h1, h2, by simpa [sumHosts] using h3⟩
  induction results with
  | nil => intro b hb; exact ⟨hb.1, hb.2, by simp [List.map_nil]⟩
  | cons r t ih =>
    intro b hb
    cases r with
    | error msg =>
      obtain ⟨h1, h2, h3⟩ := ih b hb
      exact ⟨h1, h2, by simpa [fulfilledCount] using h3⟩
    | ok slots =>
      obtain ⟨ha, hb', hc⟩ := foldl_bucketInsert_invariant slots b hb
      obtain ⟨h1, h2, h3⟩ := ih (slots.foldl bucketInsert b) ⟨ha, hb'⟩
      refine ⟨h1, h2, ?_⟩
      simp only [List.foldl_cons] at h3 ⊢
      rw [h3, hc]
      simp [fulfilledCount]
      omega

/-- C5 (amended): in every aggregation result each distinct `(start,end)`
pair appears as at most one Slot entry, and entries accumulate one host
element per contributing raw slot (all contributing hosts are accumulated,
but WITHOUT dedup by host id: a host whose raw availability repeats a start
appears repeatedly, see the counterexample). -/
theorem getUnionSlots_pairs_nodup_and_accumulates (env : Env) (cache : Cache)
    (roster : List Host) (startS endS tz : String) :
    ((getUnionSlots env cache roster startS endS tz).map
        (fun sl => (sl.start_time, sl.end_time))).Nodup ∧
    ((getUnionSlots env cache roster startS endS tz).map
        (fun sl => sl.hosts.length)).sum =
      ((roster.map (perHostSlots env cache startS endS tz)).map fulfilledCount).sum := by
  obtain ⟨hnd, hok, hsum⟩ :=
    mergeResults_invariant (roster.map (perHostSlots env cache startS endS tz))
  have hperm : List.Perm
      (List.insertionSort slotLe
        ((mergeResults (roster.map (perHostSlots env cache startS endS tz))).map Prod.snd))
      ((mergeResults (roster.map (perHostSlots env cache startS endS tz))).map Prod.snd) :=
    List.perm_insertionSort slotLe _
  constructor
  · have hkeys : (mergeResults (roster.map (perHostSlots env cache startS endS tz))).map
        Prod.fst =
        ((mergeResults (roster.map (perHostSlots env cache startS endS tz))).map
          Prod.snd).map (fun sl => sl.start_time ++ "__" ++ sl.end_time) := by
      rw [List.map_map]
      exact List.map_congr_left (fun p hp => hok p hp)
    have h1 : (((mergeResults (roster.map (perHostSlots env cache startS endS tz))).map
        Prod.snd).map (fun sl => sl.start_time ++ "__" ++ sl.end_time)).Nodup := by
      rw [← hkeys]; exact hnd
    have h2 : (((mergeResults (roster.map (perHostSlots env cache startS endS tz))).map
        Prod.snd).map (fun sl => (sl.start_time, sl.end_time))).Nodup := by
      have hcomp : (((mergeResults (roster.map (perHostSlots env cache startS endS tz))).map
          Prod.snd).map (fun sl => sl.start_time ++ "__" ++ sl.end_time)) =
          ((((mergeResults (roster.map (perHostSlots env cache startS endS tz))).map
            Prod.snd).map (fun sl => (sl.start_time, sl.end_time))).map
              (fun pr => pr.1 ++ "__" ++ pr.2)) := by
        simp only [List.map_map]
        rfl
      rw [hcomp] at h1
      exact h1.of_map _
    unfold getUnionSlots unionFromResults
    exact ((hperm.map (fun sl => (sl.start_time, sl.end_time))).nodup_iff).mpr h2
  · unfold getUnionSlots unionFromResults
    rw [(hperm.map (fun sl => sl.hosts.length)).sum_eq, List.map_map]
    rw [← hsum]
    rfl

/-- A concrete execution in which the provider reports the same
availability entry twice for the single host. -/
def env5 : Env where
  envVar := fun _ => some "tok"
  parse := fun s => if s = "2025-01-01T19:00:00Z" then some 1735758000000 else none
  render := fun t =>
    if t = 1735759800000 then "2025-01-01T19:30:00.000Z"
    else "1970-01-01T00:00:00.000Z"
  usersMe := fun _ => .error "unused"
  eventTypes := fun _ _ => .error "unused"
  availableTimes := fun _ _ _ _ _ =>
    .ok [AvEntry.mk "2025-01-01T19:00:00Z" "",
         AvEntry.mk "2025-01-01T19:00:00Z" ""]
  directBook := fun _ _ _ _ _ _ => FetchResp.mk false 500 "" none
  schedulingLink := fun _ _ _ _ => FetchResp.mk false 500 "" none

/-- C5 (counterexample): the merging loop pushes the contributing host
unconditionally, so one host reporting the same start twice appears TWICE
inside the single merged entry — hosts are NOT deduplicated by id. -/
theorem getUnionSlots_duplicate_host_in_entry :
    getUnionSlots env5 [("u", "ETU")] [hostU]
        "2025-01-01T00:00:00Z" "2025-01-08T00:00:00Z" "UTC" =
      [Slot.mk "2025-01-01T19:00:00Z" "2025-01-01T19:30:00.000Z"
        [HostRef.mk "u" "Uma", HostRef.mk "u" "Uma"]] ∧
    (∃ sl ∈ getUnionSlots env5 [("u", "ETU")] [hostU]
        "2025-01-01T00:00:00Z" "2025-01-08T00:00:00Z" "UTC",
      ¬ (sl.hosts.map HostRef.id).Nodup) := by
  have heq : getUnionSlots env5 [("u", "ETU")] [hostU]
      "2025-01-01T00:00:00Z" "2025-01-08T00:00:00Z" "UTC" =
      [Slot.mk "2025-01-01T19:00:00Z" "2025-01-01T19:30:00.000Z"
        [HostRef.mk "u" "Uma", HostRef.mk "u" "Uma"]] := by
    decide
  refine ⟨heq, ?_⟩
  rw [heq]
  exact ⟨_, List.mem_singleton.mpr rfl, by simp⟩

/-- A second roster host whose PAT env var is absent in `env6`. -/
def hostB : Host :=
  Host.mk "b" "Bob" "B_PAT" "https://calendly.com/b/meet" 2

/-- A concrete execution in which `hostU` has a credential and one
availability, while `hostB`'s PAT env var is missing. -/
def env6 : Env where
  envVar := fun nm => if nm = "U_PAT" then some "tok" else none
  parse := fun s => if s = "2025-01-01T19:00:00Z" then some 1735758000000 else none
  render := fun t =>
    if t = 1735759800000 then "2025-01-01T19:30:00.000Z"
    else "1970-01-01T00:00:00.000Z"
  usersMe := fun _ => .error "unused"
  eventTypes := fun _ _ => .error "unused"
  availableTimes := fun _ _ _ _ _ => .ok [AvEntry.mk "2025-01-01T19:00:00Z" ""]
  directBook := fun _ _ _ _ _ _ => FetchResp.mk false 500 "" none
  schedulingLink := fun _ _ _ _ => FetchResp.mk false 500 "" none

/-- C6 (witness): with `hostB`'s credential missing, aggregating over
`[hostU, hostB]` equals aggregating over `[hostU]` alone. -/
theorem getUnionSlots_isolation_witness :
    (perHostSlots env6 [("u", "ETU")] "2025-01-01T00:00:00Z" "2025-01-08T00:00:00Z"
        "UTC" hostB).toOption = none ∧
    getUnionSlots env6 [("u", "ETU")] ([hostU] ++ hostB :: [])
        "2025-01-01T00:00:00Z" "2025-01-08T00:00:00Z" "UTC" =
      getUnionSlots env6 [("u", "ETU")] ([hostU] ++ [])
        "2025-01-01T00:00:00Z" "2025-01-08T00:00:00Z" "UTC" :=
  ⟨rfl, getUnionSlots_isolation env6 [("u", "ETU")]
    "2025-01-01T00:00:00Z" "2025-01-08T00:00:00Z" "UTC" [hostU] [] hostB rfl⟩

theorem key_ne_of_ne {s1 s2 E : String} (h : s1 ≠ s2) :
    s1 ++ "__" ++ E ≠ s2 ++ "__" ++ E := by
  intro heq
  apply h
  have hd : (s1 ++ "__" ++ E).data = (s2 ++ "__" ++ E).data := by rw [heq]
  simp only [String.data_append] at hd
  have h1 := List.append_cancel_right hd
  have h2 := List.append_cancel_right h1
  exact String.ext h2

theorem perHostSlots_single (env : Env) (cache : Cache) (startS endS tz : String)
    (h : Host) (tk et s d : String) (t : Int)
    (htk : env.envVar h.pat_env = some tk) (htke : tk.isEmpty = false)
    (hc : cacheFind cache h.host_id = some et)
    (ha : env.availableTimes (some tk) et startS endS
      (if tz.isEmpty then "UTC" else tz) = .ok [AvEntry.mk s d])
    (hp : env.parse s = some t) :
    perHostSlots env cache startS endS tz h =
      .ok [RawSlot.mk s (env.render (t + 30 * 60 * 1000)) h.host_id h.display_name] := by
  unfold perHostSlots resolveEventTypeApiUriForHost
  rw [htk, hc]
  simp only [htke, Bool.false_eq_true, if_false]
  rw [ha]
  simp [addMinutesISO, hp, mapOrThrow]

/-- C10: the aggregation merge identifies two raw entries as the same slot
iff their `start_time` strings are equal character for character (the
derived end string is determined by the parsed instant, which is here the
same); the start strings are passed through VERBATIM and ordered as raw
strings.  Two textually different renderings of one instant stay separate
entries. -/
theorem getUnionSlots_merge_by_raw_string (env : Env) (cache : Cache)
    (h1 h2 : Host) (tk1 tk2 et1 et2 s1 s2 d1 d2 startS endS tz : String) (t : Int)
    (htk1 : env.envVar h1.pat_env = some tk1) (htk1e : tk1.isEmpty = false)
    (htk2 : env.envVar h2.pat_env = some tk2) (htk2e : tk2.isEmpty = false)
    (hc1 : cacheFind cache h1.host_id = some et1)
    (hc2 : cacheFind cache h2.host_id = some et2)
    (ha1 : env.availableTimes (some tk1) et1 startS endS
      (if tz.isEmpty then "UTC" else tz) = .ok [AvEntry.mk s1 d1])
    (ha2 : env.availableTimes (some tk2) et2 startS endS
      (if tz.isEmpty then "UTC" else tz) = .ok [AvEntry.mk s2 d2])
    (hp1 : env.parse s1 = some t) (hp2 : env.parse s2 = some t) :
    ((getUnionSlots env cache [h1, h2] startS endS tz).map Slot.start_time =
      if s1 = s2 then [s1] else List.insertionSort strLe [s1, s2]) ∧
    ((getUnionSlots env cache [h1, h2] startS endS tz).length = 1 ↔ s1 = s2) := by
  have hph1 := perHostSlots_single env cache startS endS tz h1 tk1 et1 s1 d1 t
    htk1 htk1e hc1 ha1 hp1
  have hph2 := perHostSlots_single env cache startS endS tz h2 tk2 et2 s2 d2 t
    htk2 htk2e hc2 ha2 hp2
  unfold getUnionSlots unionFromResults mergeResults
  rw [List.map_cons, List.map_cons, List.map_nil, hph1, hph2]
  simp only [List.foldl_cons, List.foldl_nil]
  by_cases hss : s1 = s2
  · subst hss
    simp only [bucketInsert, bucketFind, setAssoc, slotKey, Option.getD_none,
      Option.getD_some, if_pos rfl, List.foldl_cons, List.foldl_nil, List.nil_append,
      List.map_cons, List.map_nil, List.insertionSort, List.orderedInsert]
    simp
  · have hkne : s1 ++ "__" ++ env.render (t + 30 * 60 * 1000) ≠
        s2 ++ "__" ++ env.render (t + 30 * 60 * 1000) := key_ne_of_ne hss
    simp only [bucketInsert, bucketFind, setAssoc, slotKey, Option.getD_none,
      Option.getD_some, if_pos rfl, if_neg hkne, List.foldl_cons, List.foldl_nil,
      List.nil_append, List.map_cons, List.map_nil, List.insertionSort,
      List.orderedInsert]
    by_cases hle : strLe s1 s2
    · rw [if_pos (show slotLe
          (Slot.mk s1 (env.render (t + 30 * 60 * 1000))
            [HostRef.mk h1.host_id h1.display_name])
          (Slot.mk s2 (env.render (t + 30 * 60 * 1000))
            [HostRef.mk h2.host_id h2.display_name]) from hle),
        if_pos hle]
      simp [hss]
    · rw [if_neg (show ¬ slotLe
          (Slot.mk s1 (env.render (t + 30 * 60 * 1000))
            [HostRef.mk h1.host_id h1.display_name])
          (Slot.mk s2 (env.render (t + 30 * 60 * 1000))
            [HostRef.mk h2.host_id h2.display_name]) from hle),
        if_neg hle]
      simp [hss]

/-- A concrete execution in which the two hosts report the same instant in
two different textual renderings (`...T19:00:00Z` vs `...T19:00:00.000Z`). -/
def env10 : Env where
  envVar := fun nm =>
    if nm = "U_PAT" then some "tokU"
    else if nm = "B_PAT" then some "tokB"
    else none
  parse := fun s =>
    if s = "2025-01-01T19:00:00Z" then some 1735758000000
    else if s = "2025-01-01T19:00:00.000Z" then some 1735758000000
    else none
  render := fun t =>
    if t = 1735759800000 then "2025-01-01T19:30:00.000Z"
    else "1970-01-01T00:00:00.000Z"
  usersMe := fun _ => .error "unused"
  eventTypes := fun _ _ => .error "unused"
  availableTimes := fun _ et _ _ _ =>
    if et = "ET1" then .ok [AvEntry.mk "2025-01-01T19:00:00Z" ""]
    else .ok [AvEntry.mk "2025-01-01T19:00:00.000Z" ""]
  directBook := fun _ _ _ _ _ _ => FetchResp.mk false 500 "" none
  schedulingLink := fun _ _ _ _ => FetchResp.mk false 500 "" none

/-- C10 (witness): two renderings of one instant stay two separate entries,
ordered and keyed by the raw strings. -/
theorem getUnionSlots_merge_by_raw_string_witness :
    ((getUnionSlots env10 [("u", "ET1"), ("b", "ET2")] [hostU, hostB]
        "2025-01-01T00:00:00Z" "2025-01-08T00:00:00Z" "UTC").map Slot.start_time =
      if ("2025-01-01T19:00:00Z" : String) = "2025-01-01T19:00:00.000Z" then
        ["2025-01-01T19:00:00Z"]
      else List.insertionSort strLe
        ["2025-01-01T19:00:00Z", "2025-01-01T19:00:00.000Z"]) ∧
    ((getUnionSlots env10 [("u", "ET1"), ("b", "ET2")] [hostU, hostB]
        "2025-01-01T00:00:00Z" "2025-01-08T00:00:00Z" "UTC").length = 1 ↔
      ("2025-01-01T19:00:00Z" : String) = "2025-01-01T19:00:00.000Z") :=
  getUnionSlots_merge_by_raw_string env10 [("u", "ET1"), ("b", "ET2")] hostU hostB
    "tokU" "tokB" "ET1" "ET2" "2025-01-01T19:00:00Z" "2025-01-01T19:00:00.000Z"
    "" "" "2025-01-01T00:00:00Z" "2025-01-08T00:00:00Z" "UTC" 1735758000000
    rfl rfl rfl rfl rfl rfl rfl rfl rfl rfl

/-- An eligible host entry of the booking route: `{...h, et}`. -/
structure EligHost where
  host : Host
  et : String
deriving DecidableEq, Repr

/-- The booking sort comparator:
`(a,b) => b.priority_weight - a.priority_weight` is non-positive exactly
when `a` weighs at least `b` (descending by weight, stable). -/
def hostGe (a b : EligHost) : Prop :=
  b.host.priority_weight ≤ a.host.priority_weight

instance : DecidableRel hostGe := fun a b =>
  inferInstanceAs (Decidable (b.host.priority_weight ≤ a.host.priority_weight))

/-- `eligible.sort(...)` followed by `eligible[0]`: the head of the stable
descending-by-weight sort (`none` exactly when no host is eligible). -/
def chooseHost (elig : List EligHost) : Option EligHost :=
  (List.insertionSort hostGe elig).head?

/-- The eligibility loop of `POST /api/book`: for each roster host in
order, `await hostHasExactSlot` (an exception aborts the whole request),
and on `true` re-resolve the event type (a guaranteed cache hit) and
collect `{...h, et}`. -/
def eligibleLoop (env : Env) (sISO eISO : String) :
    List Host → Cache → Except String (List EligHost × Cache)
  | [], cache => .ok ([], cache)
  | h :: t, cache =>
    match hostHasExactSlot env cache h sISO eISO with
    | .error msg => .error msg
    | .ok (b, c1) =>
      if b then
        match resolveEventTypeApiUriForHost env c1 h with
        | .error msg => .error msg
        | .ok (et, c2) =>
          match eligibleLoop env sISO eISO t c2 with
          | .error msg => .error msg
          | .ok (l, cf) => .ok (EligHost.mk h et :: l, cf)
      else eligibleLoop env sISO eISO t c1

/-- A provider call made by the booking route after host selection. -/
inductive PCall where
  | direct (eventType startISO endISO name email : String)
  | link (owner ownerType : String) (maxEventCount : Nat)
deriving DecidableEq, Repr

/-- The observable response of `POST /api/book`. -/
inductive BookResult where
  | validationError
  | conflict
  | booked (body : String) (hostAssigned : String)
  | redirect (url : Option String) (hostAssigned : String)
  | upstreamDirect (status : Nat) (body : String)
  | upstreamFallback (status : Nat) (body : String)
  | serverError (msg : String)
deriving DecidableEq, Repr

/-- The HTTP status the route answers with for each outcome. -/
def statusOf : BookResult → Nat
  | .validationError => 400
  | .conflict => 409
  | .booked _ _ => 200
  | .redirect _ _ => 200
  | .upstreamDirect _ _ => 502
  | .upstreamFallback _ _ => 502
  | .serverError _ => 500

def isLinkCall : PCall → Bool
  | .link _ _ _ => true
  | _ => false

def isDirectCall : PCall → Bool
  | .direct _ _ _ _ _ => true
  | _ => false

/-- The reservation attempt against the chosen host: `POST /event_invitees`
with the normalized instants; on `r.ok` a confirmed outcome; on a status in
`[403, 404, 422]` one `POST /scheduling_links` with `owner` the chosen
host's event type, `owner_type "EventType"`, `max_event_count 1` (success:
redirect outcome with the link's `booking_url` and the host's display name;
failure: 502); on any other status a 502 with no fallback. The second
component records the provider calls made. -/
def attemptBooking (env : Env) (chosen : EligHost) (sISO eISO nm em : String) :
    BookResult × List PCall :=
  let token := env.envVar chosen.host.pat_env
  let r1 := env.directBook token chosen.et sISO eISO nm em
  if r1.ok then
    (.booked r1.body chosen.host.display_name, [.direct chosen.et sISO eISO nm em])
  else if [403, 404, 422].contains r1.status then
    let r2 := env.schedulingLink token chosen.et "EventType" 1
    if r2.ok then
      (.redirect r2.bookingUrl chosen.host.display_name,
        [.direct chosen.et sISO eISO nm em, .link chosen.et "EventType" 1])
    else
      (.upstreamFallback r2.status r2.body,
        [.direct chosen.et sISO eISO nm em, .link chosen.et "EventType" 1])
  else
    (.upstreamDirect r1.status r1.body, [.direct chosen.et sISO eISO nm em])

/-- The `invitee` object of a booking request body. -/
structure Invitee where
  name : Option String
  email : Option String
deriving DecidableEq, Repr

/-- The JSON body of `POST /api/book` (`req.body` may be absent). -/
structure BookBody where
  start_time : Option String
  end_time : Option String
  invitee : Option Invitee
deriving DecidableEq, Repr

/-- `POST /api/book`: falsy-field validation (400), `toISO` normalization
(a parse failure throws and is answered 500 by the route's catch), the
eligibility loop (an exception is answered 500), the 409 conflict on an
empty eligible set, stable priority selection, and the reservation
attempt. -/
def book (env : Env) (cache : Cache) (roster : List Host) (body : Option BookBody) :
    BookResult × List PCall :=
  let b := body.getD (BookBody.mk none none none)
  if falsyS b.start_time || falsyS b.end_time ||
      falsyS (b.invitee.bind Invitee.email) || falsyS (b.invitee.bind Invitee.name) then
    (.validationError, [])
  else
    match toISO env (b.start_time.getD ""), toISO env (b.end_time.getD "") with
    | some sISO, some eISO =>
      match eligibleLoop env sISO eISO roster cache with
      | .error msg => (.serverError msg, [])
      | .ok (elig, _) =>
        match chooseHost elig with
        | none => (.conflict, [])
        | some chosen =>
          attemptBooking env chosen sISO eISO
            ((b.invitee.bind Invitee.name).getD "")
            ((b.invitee.bind Invitee.email).getD "")
    | _, _ => (.serverError "Invalid time value", [])

/-- C1: for a non-empty eligible set the selected host is the first-listed
host of maximal priority weight: it is an eligible host, no eligible host
weighs more, and every host listed before it weighs strictly less (the
descending stable sort puts the first maximal-weight host on top). -/
theorem chooseHost_first_max (elig : List EligHost) (hne : elig ≠ []) :
    ∃ m pre post, chooseHost elig = some m ∧ elig = pre ++ m :: post ∧
      (∀ x ∈ elig, x.host.priority_weight ≤ m.host.priority_weight) ∧
      (∀ x ∈ pre, x.host.priority_weight < m.host.priority_weight) := by
  induction elig with
  | nil => exact absurd rfl hne
  | cons h t ih =>
    cases t with
    | nil =>
      refine ⟨h, [], [], rfl, rfl, ?_, ?_⟩
      · intro x hx; rcases List.mem_singleton.mp hx with rfl; exact le_refl _
      · intro x hx; cases hx
    | cons y t2 =>
      obtain ⟨m, pre, post, hch, hsplit, hmax, hpre⟩ := ih (by simp)
      cases hsort : List.insertionSort hostGe (y :: t2) with
      | nil =>
        exfalso
        have hp := List.perm_insertionSort hostGe (y :: t2)
        rw [hsort] at hp
        exact absurd hp.length_eq (by simp)
      | cons b rest =>
        have hcb : chooseHost (y :: t2) = some b := by
          unfold chooseHost
          rw [hsort]
          rfl
        have hmb : m = b := by
          rw [hch] at hcb
          exact Option.some.inj hcb
        subst hmb
        by_cases hw : m.host.priority_weight ≤ h.host.priority_weight
        · refine ⟨h, [], y :: t2, ?_, rfl, ?_, ?_⟩
          · unfold chooseHost
            rw [show List.insertionSort hostGe (h :: y :: t2) =
              List.orderedInsert hostGe h (List.insertionSort hostGe (y :: t2)) from rfl,
              hsort]
            simp only [List.orderedInsert]
            rw [if_pos (show hostGe h m from hw)]
            rfl
          · intro x hx
            rcases List.mem_cons.mp hx with rfl | hx
            · exact le_refl _
            · exact le_trans (hmax x hx) hw
          · intro x hx; cases hx
        · push_neg at hw
          refine ⟨m, h :: pre, post, ?_, by rw [hsplit]; rfl, ?_, ?_⟩
          · unfold chooseHost
            rw [show List.insertionSort hostGe (h :: y :: t2) =
              List.orderedInsert hostGe h (List.insertionSort hostGe (y :: t2)) from rfl,
              hsort]
            simp only [List.orderedInsert]
            rw [if_neg (show ¬ hostGe h m from not_le.mpr hw)]
            rfl
          · intro x hx
            rcases List.mem_cons.mp hx with rfl | hx
            · exact le_of_lt hw
            · exact hmax x hx
          · intro x hx
            rcases List.mem_cons.mp hx with rfl | hx
            · exact hw
            · exact hpre x hx

/-- An eligible host of weight 5. -/
def eligW5 : EligHost :=
  EligHost.mk (Host.mk "a" "Ann" "A_PAT" "https://calendly.com/a/meet" 5) "ETA"

/-- An eligible host of weight 10, listed second. -/
def eligW10 : EligHost :=
  EligHost.mk (Host.mk "b" "Bob" "B_PAT" "https://calendly.com/b/meet" 10) "ETB"

/-- C1 (witness): of eligible weights `[5, 10]` the weight-10 host is
selected. -/
theorem chooseHost_first_max_witness :
    ∃ m pre post, chooseHost [eligW5, eligW10] = some m ∧
      [eligW5, eligW10] = pre ++ m :: post ∧
      (∀ x ∈ [eligW5, eligW10], x.host.priority_weight ≤ m.host.priority_weight) ∧
      (∀ x ∈ pre, x.host.priority_weight < m.host.priority_weight) :=
  chooseHost_first_max [eligW5, eligW10] (by simp)

/-- C2: when the direct reservation is rejected with 403, 404 or 422, the
route makes exactly one scheduling-link request, for the chosen host's
event type with `max_event_count = 1`, answering a redirect with the link
URL and the host's display name on success and 502 when the fallback
itself fails; any other rejection status is answered 502 with no fallback
call. -/
theorem attemptBooking_fallback (env : Env) (chosen : EligHost)
    (sISO eISO nm em : String)
    (hfail : (env.directBook (env.envVar chosen.host.pat_env) chosen.et
      sISO eISO nm em).ok = false) :
    (([403, 404, 422].contains (env.directBook (env.envVar chosen.host.pat_env)
        chosen.et sISO eISO nm em).status = true →
      (attemptBooking env chosen sISO eISO nm em).2.countP
        (fun c => c == PCall.link chosen.et "EventType" 1) = 1 ∧
      ((env.schedulingLink (env.envVar chosen.host.pat_env) chosen.et
          "EventType" 1).ok = true →
        (attemptBooking env chosen sISO eISO nm em).1 =
          .redirect (env.schedulingLink (env.envVar chosen.host.pat_env) chosen.et
            "EventType" 1).bookingUrl chosen.host.display_name) ∧
      ((env.schedulingLink (env.envVar chosen.host.pat_env) chosen.et
          "EventType" 1).ok = false →
        statusOf (attemptBooking env chosen sISO eISO nm em).1 = 502)) ∧
    ([403, 404, 422].contains (env.directBook (env.envVar chosen.host.pat_env)
        chosen.et sISO eISO nm em).status = false →
      (attemptBooking env chosen sISO eISO nm em).2.countP isLinkCall = 0 ∧
      (attemptBooking env chosen sISO eISO nm em).1 =
        .upstreamDirect (env.directBook (env.envVar chosen.host.pat_env) chosen.et
          sISO eISO nm em).status
          (env.directBook (env.envVar chosen.host.pat_env) chosen.et
            sISO eISO nm em).body ∧
      statusOf (attemptBooking env chosen sISO eISO nm em).1 = 502)) := by
  unfold attemptBooking
  simp only [hfail, Bool.false_eq_true, if_false]
  constructor
  · intro hmem
    simp only [hmem, if_true]
    cases hr2 : (env.schedulingLink (env.envVar chosen.host.pat_env) chosen.et
        "EventType" 1).ok
    · simp [hr2, statusOf, List.countP_cons, List.countP_nil]
    · simp [hr2, statusOf, List.countP_cons, List.countP_nil]
  · intro hnmem
    have hcond : ¬ ([403, 404, 422].contains (env.directBook
        (env.envVar chosen.host.pat_env) chosen.et sISO eISO nm em).status = true) := by
      rw [hnmem]; exact Bool.false_ne_true
    rw [if_neg hcond]
    simp [statusOf, isLinkCall, List.countP_cons, List.countP_nil]

/-- A concrete execution in which the direct booking is rejected with 403
and the fallback link creation succeeds. -/
def env2 : Env where
  envVar := fun _ => some "tok"
  parse := fun _ => none
  render := fun _ => "1970-01-01T00:00:00.000Z"
  usersMe := fun _ => .error "unused"
  eventTypes := fun _ _ => .error "unused"
  availableTimes := fun _ _ _ _ _ => .error "unused"
  directBook := fun _ _ _ _ _ _ => FetchResp.mk false 403 "forbidden" none
  schedulingLink := fun _ _ _ _ =>
    FetchResp.mk true 201 "" (some "https://calendly.com/d/xyz-link")

/-- C2 (witness): a 403 rejection with a succeeding fallback yields exactly
one link call and a redirect outcome. -/
theorem attemptBooking_fallback_witness :
    (([403, 404, 422].contains (env2.directBook (env2.envVar eligW10.host.pat_env)
        eligW10.et "S" "E" "Ann" "ann@example.com").status = true →
      (attemptBooking env2 eligW10 "S" "E" "Ann" "ann@example.com").2.countP
        (fun c => c == PCall.link eligW10.et "EventType" 1) = 1 ∧
      ((env2.schedulingLink (env2.envVar eligW10.host.pat_env) eligW10.et
          "EventType" 1).ok = true →
        (attemptBooking env2 eligW10 "S" "E" "Ann" "ann@example.com").1 =
          .redirect (env2.schedulingLink (env2.envVar eligW10.host.pat_env) eligW10.et
            "EventType" 1).bookingUrl eligW10.host.display_name) ∧
      ((env2.schedulingLink (env2.envVar eligW10.host.pat_env) eligW10.et
          "EventType" 1).ok = false →
        statusOf (attemptBooking env2 eligW10 "S" "E" "Ann" "ann@example.com").1 = 502)) ∧
    ([403, 404, 422].contains (env2.directBook (env2.envVar eligW10.host.pat_env)
        eligW10.et "S" "E" "Ann" "ann@example.com").status = false →
      (attemptBooking env2 eligW10 "S" "E" "Ann" "ann@example.com").2.countP
        isLinkCall = 0 ∧
      (attemptBooking env2 eligW10 "S" "E" "Ann" "ann@example.com").1 =
        .upstreamDirect (env2.directBook (env2.envVar eligW10.host.pat_env) eligW10.et
          "S" "E" "Ann" "ann@example.com").status
          (env2.directBook (env2.envVar eligW10.host.pat_env) eligW10.et
            "S" "E" "Ann" "ann@example.com").body ∧
      statusOf (attemptBooking env2 eligW10 "S" "E" "Ann" "ann@example.com").1 = 502)) :=
  attemptBooking_fallback env2 eligW10 "S" "E" "Ann" "ann@example.com" rfl

/-- C9: when the eligibility scan finds no host with the exact slot, the
route answers the 409 conflict and makes NO provider reservation call:
neither a direct booking nor a scheduling-link request appears in the call
trace. -/
theorem book_no_eligibility (env : Env) (cache : Cache) (roster : List Host)
    (st en nm em sISO eISO : String) (c' : Cache)
    (hst : st.isEmpty = false) (hen : en.isEmpty = false)
    (hnm : nm.isEmpty = false) (hem : em.isEmpty = false)
    (hs : toISO env st = some sISO) (he : toISO env en = some eISO)
    (helig : eligibleLoop env sISO eISO roster cache = .ok ([], c')) :
    book env cache roster (some (BookBody.mk (some st) (some en)
        (some (Invitee.mk (some nm) (some em))))) = (.conflict, []) ∧
    statusOf .conflict = 409 ∧
    (book env cache roster (some (BookBody.mk (some st) (some en)
        (some (Invitee.mk (some nm) (some em)))))).2.countP isDirectCall = 0 ∧
    (book env cache roster (some (BookBody.mk (some st) (some en)
        (some (Invitee.mk (some nm) (some em)))))).2.countP isLinkCall = 0 := by
  have hb : book env cache roster (some (BookBody.mk (some st) (some en)
      (some (Invitee.mk (some nm) (some em))))) = (.conflict, []) := by
    unfold book
    simp only [Option.getD_some, Option.some_bind, falsyS, hst, hen, hnm, hem,
      Bool.or_self, Bool.or_false, Bool.false_eq_true, if_false]
    rw [hs, he]
    dsimp only
    rw [helig]
    rfl
  refine ⟨hb, rfl, ?_, ?_⟩ <;> rw [hb] <;> rfl

/-- A concrete execution in which the single host's availability query
returns no entries, so no host has the exact slot. -/
def env9 : Env where
  envVar := fun _ => some "tok"
  parse := fun s =>
    if s = "S" then some 1000
    else if s = "E" then some 2000
    else if s = "R1" then some 1000
    else if s = "R2" then some 2000
    else none
  render := fun t => if t = 1000 then "R1" else if t = 2000 then "R2" else "Z"
  usersMe := fun _ => .error "unused"
  eventTypes := fun _ _ => .error "unused"
  availableTimes := fun _ _ _ _ _ => .ok []
  directBook := fun _ _ _ _ _ _ => FetchResp.mk true 200 "confirmed" none
  schedulingLink := fun _ _ _ _ => FetchResp.mk true 201 "" none

/-- C9 (witness): an empty eligible set answers 409 with an empty call
trace. -/
theorem book_no_eligibility_witness :
    book env9 [("u", "ETU")] [hostU] (some (BookBody.mk (some "S") (some "E")
        (some (Invitee.mk (some "Ann") (some "ann@example.com"))))) = (.conflict, []) ∧
    statusOf .conflict = 409 ∧
    (book env9 [("u", "ETU")] [hostU] (some (BookBody.mk (some "S") (some "E")
        (some (Invitee.mk (some "Ann") (some "ann@example.com")))))).2.countP
      isDirectCall = 0 ∧
    (book env9 [("u", "ETU")] [hostU] (some (BookBody.mk (some "S") (some "E")
        (some (Invitee.mk (some "Ann") (some "ann@example.com")))))).2.countP
      isLinkCall = 0 :=
  book_no_eligibility env9 [("u", "ETU")] [hostU] "S" "E" "Ann" "ann@example.com"
    "R1" "R2" [("u", "ETU")] rfl rfl rfl rfl rfl rfl rfl

/-- A roster host used by the verification-failure scenarios. -/
def hostX : Host :=
  Host.mk "x" "Xena" "X_PAT" "https://calendly.com/x/meet" 1

/-- A concrete execution in which every credential env var is absent. -/
def env3 : Env where
  envVar := fun _ => none
  parse := fun _ => none
  render := fun _ => "1970-01-01T00:00:00.000Z"
  usersMe := fun _ => .error "unused"
  eventTypes := fun _ _ => .error "unused"
  availableTimes := fun _ _ _ _ _ => .error "unused"
  directBook := fun _ _ _ _ _ _ => FetchResp.mk false 500 "" none
  schedulingLink := fun _ _ _ _ => FetchResp.mk false 500 "" none

/-- C3 (counterexample): with the host's credential missing (and the
event-type cache cold), the exact-slot verifier does NOT return `false` —
the resolution failure escapes the `try` and propagates as an exception
(answered 500 by the booking route), contradicting the claim that every
upstream or resolution failure is mapped to `false`. -/
theorem hostHasExactSlot_propagates_resolution_failure :
    hostHasExactSlot env3 [] hostX "2025-01-01T19:00:00Z" "2025-01-01T19:30:00Z" =
      .error "Missing PAT env var for x: X_PAT" ∧
    (hostHasExactSlot env3 [] hostX "2025-01-01T19:00:00Z"
      "2025-01-01T19:30:00Z").toOption = none :=
  ⟨rfl, rfl⟩

/-- C3 (amended): once credential lookup and event-type resolution have
succeeded and the instants normalize, a failure of the availability query
itself is swallowed and reported as `false` (fails closed); the exact scan
runs only on a successful query. Failures BEFORE the query (missing
credential with a cold cache, resolution failure) propagate instead, as
the counterexample shows. -/
theorem hostHasExactSlot_fails_closed (env : Env) (cache : Cache) (h : Host)
    (st en et sISO eISO : String) (c' : Cache)
    (hres : resolveEventTypeApiUriForHost env cache h = .ok (et, c'))
    (hs : toISO env st = some sISO) (he : toISO env en = some eISO) :
    hostHasExactSlot env cache h st en =
      match env.availableTimes (env.envVar h.pat_env) et sISO eISO "UTC" with
      | .error _ => .ok (false, c')
      | .ok coll => .ok (coll.any (fun s =>
          sameInstant env s.start_time sISO && sameInstant env s.end_time eISO), c') := by
  unfold hostHasExactSlot
  rw [hres]
  dsimp only
  rw [hs, he]

/-- A concrete execution with a cached event type and a failing
availability query. -/
def env3b : Env where
  envVar := fun _ => some "tok"
  parse := fun s =>
    if s = "A" then some 1000
    else if s = "B" then some 2000
    else if s = "R1" then some 1000
    else if s = "R2" then some 2000
    else none
  render := fun t => if t = 1000 then "R1" else if t = 2000 then "R2" else "Z"
  usersMe := fun _ => .error "unused"
  eventTypes := fun _ _ => .error "unused"
  availableTimes := fun _ _ _ _ _ => .error "availability query failed"
  directBook := fun _ _ _ _ _ _ => FetchResp.mk false 500 "" none
  schedulingLink := fun _ _ _ _ => FetchResp.mk false 500 "" none

/-- C3 (witness): with resolution served from the cache and the
availability call failing, the verifier answers `false`. -/
theorem hostHasExactSlot_fails_closed_witness :
    hostHasExactSlot env3b [("x", "ETX")] hostX "A" "B" =
      match env3b.availableTimes (env3b.envVar hostX.pat_env) "ETX" "R1" "R2" "UTC" with
      | .error _ => .ok (false, [("x", "ETX")])
      | .ok coll => .ok (coll.any (fun s =>
          sameInstant env3b s.start_time "R1" && sameInstant env3b s.end_time "R2"),
          [("x", "ETX")]) :=
  hostHasExactSlot_fails_closed env3b [("x", "ETX")] hostX "A" "B" "ETX" "R1" "R2"
    [("x", "ETX")] rfl rfl rfl

theorem sameInstant_eq_true_iff (env : Env) (a b : String) :
    sameInstant env a b = true ↔
      ∃ t : Int, env.parse a = some t ∧ env.parse b = some t := by
  unfold sameInstant
  cases ha : env.parse a with
  | none =>
    dsimp only
    constructor
    · intro hc; exact absurd hc (by simp)
    · rintro ⟨t, h1, h2⟩; cases h1
  | some x =>
    cases hb : env.parse b with
    | none =>
      dsimp only
      constructor
      · intro hc; exact absurd hc (by simp)
      · rintro ⟨t, h1, h2⟩; cases h2
    | some y =>
      dsimp only
      rw [beq_iff_eq]
      constructor
      · rintro rfl
        exact ⟨x, rfl, rfl⟩
      · rintro ⟨t, h1, h2⟩
        cases h1; cases h2; rfl

/-- C4: under a successful availability query the verifier returns exactly
the scan result, and it answers `true` iff some returned entry's start AND
end instants both equal (by parsed instant value) the normalized requested
start and end — an overlapping-but-not-identical entry never qualifies. -/
theorem hostHasExactSlot_exact_match (env : Env) (cache : Cache) (h : Host)
    (st en et sISO eISO : String) (c' : Cache) (coll : List AvEntry)
    (hres : resolveEventTypeApiUriForHost env cache h = .ok (et, c'))
    (hs : toISO env st = some sISO) (he : toISO env en = some eISO)
    (hav : env.availableTimes (env.envVar h.pat_env) et sISO eISO "UTC" = .ok coll) :
    hostHasExactSlot env cache h st en =
      .ok (coll.any (fun s => sameInstant env s.start_time sISO &&
        sameInstant env s.end_time eISO), c') ∧
    (hostHasExactSlot env cache h st en = .ok (true, c') ↔
      ∃ entry ∈ coll, ∃ ts te : Int,
        env.parse entry.start_time = some ts ∧ env.parse sISO = some ts ∧
        env.parse entry.end_time = some te ∧ env.parse eISO = some te) := by
  have heq : hostHasExactSlot env cache h st en =
      .ok (coll.any (fun s => sameInstant env s.start_time sISO &&
        sameInstant env s.end_time eISO), c') := by
    unfold hostHasExactSlot
    rw [hres]
    dsimp only
    rw [hs, he]
    dsimp only
    rw [hav]
  refine ⟨heq, ?_⟩
  rw [heq]
  simp only [Except.ok.injEq, Prod.mk.injEq, and_true, List.any_eq_true,
    Bool.and_eq_true, sameInstant_eq_true_iff]
  constructor
  · rintro ⟨entry, hmem, ⟨ts, h1, h2⟩, ⟨te, h3, h4⟩⟩
    exact ⟨entry, hmem, ts, te, h1, h2, h3, h4⟩
  · rintro ⟨entry, hmem, ts, te, h1, h2, h3, h4⟩
    exact ⟨entry, hmem, ⟨ts, h1, h2⟩, ⟨te, h3, h4⟩⟩

/-- A concrete execution whose availability response holds an
overlapping-but-not-identical entry and an exact entry. -/
def env4 : Env where
  envVar := fun _ => some "tok"
  parse := fun s =>
    if s = "A" then some 1000
    else if s = "B" then some 2000
    else if s = "R1" then some 1000
    else if s = "R2" then some 2000
    else if s = "O1" then some 500
    else if s = "O2" then some 1500
    else none
  render := fun t => if t = 1000 then "R1" else if t = 2000 then "R2" else "Z"
  usersMe := fun _ => .error "unused"
  eventTypes := fun _ _ => .error "unused"
  availableTimes := fun _ _ _ _ _ =>
    .ok [AvEntry.mk "O1" "O2", AvEntry.mk "R1" "R2"]
  directBook := fun _ _ _ _ _ _ => FetchResp.mk false 500 "" none
  schedulingLink := fun _ _ _ _ => FetchResp.mk false 500 "" none

/-- C4 (witness): with one overlapping and one exact entry, the verifier's
result is the scan value and its truth is equivalent to the existence of an
entry exact at both endpoints. -/
theorem hostHasExactSlot_exact_match_witness :
    hostHasExactSlot env4 [("x", "ETX")] hostX "A" "B" =
      .ok ([AvEntry.mk "O1" "O2", AvEntry.mk "R1" "R2"].any
        (fun s => sameInstant env4 s.start_time "R1" &&
          sameInstant env4 s.end_time "R2"), [("x", "ETX")]) ∧
    (hostHasExactSlot env4 [("x", "ETX")] hostX "A" "B" =
        .ok (true, [("x", "ETX")]) ↔
      ∃ entry ∈ [AvEntry.mk "O1" "O2", AvEntry.mk "R1" "R2"], ∃ ts te : Int,
        env4.parse entry.start_time = some ts ∧ env4.parse "R1" = some ts ∧
        env4.parse entry.end_time = some te ∧ env4.parse "R2" = some te) :=
  hostHasExactSlot_exact_match env4 [("x", "ETX")] hostX "A" "B" "ETX" "R1" "R2"
    [("x", "ETX")] [AvEntry.mk "O1" "O2", AvEntry.mk "R1" "R2"] rfl rfl rfl rfl
